import Mathlib

/-!
Shallow embedding of `bit-array-rs` (src/lib.rs): a `Bit` wrapper over a
boolean, a `Byte` wrapper over an 8-bit unsigned value with per-index bit
getters/setters, and a cursor-based bit iterator `BitIter`.

Machine integers are modelled as `Nat`; the `u8` payload of `Byte` is a
`Nat` that the Rust type keeps in `0..256`, so theorems carry the bound
`< 256` explicitly where it matters.  The 8-bit complement `!(1 << idx)`
of Rust is `255 ^^^ (1 <<< idx)` on `Nat` (exact for `idx < 8`).
-/

namespace BitArray

/-- `struct Bit(bool)`: wraps a single bit as a boolean. -/
structure Bit where
  val : Bool
deriving DecidableEq, Repr

/-- `Bit::is_one`: true if the encapsulated bit is a `1` (the `Deref`
to the inner boolean). -/
def Bit.is_one (b : Bit) : Bool := b.val

/-- `Bit::is_zero`: true if the encapsulated bit is a `0`. -/
def Bit.is_zero (b : Bit) : Bool := !b.is_one

/-- `Bit::get_zero_bit()`: the source returns `Self(false)`. -/
def Bit.get_zero_bit : Bit := ⟨false⟩

/-- `Bit::get_one_bit()`: the source returns `Self(true)`. -/
def Bit.get_one_bit : Bit := ⟨true⟩

/-- The value `get_zero_bit` is documented to produce: its doc comment in
the source reads "Getter for a bit that has a value of 1". -/
def Bit.get_zero_bit_doc_value : Bit := ⟨true⟩

/-- The value `get_one_bit` is documented to produce: its doc comment in
the source reads "Getter for a bit that has a value of 0". -/
def Bit.get_one_bit_doc_value : Bit := ⟨false⟩

/-- `impl From<bool> for Bit`. -/
def Bit.from_bool (b : Bool) : Bit := ⟨b⟩

/-- `impl From<u8> for Bit`: `0` maps to false, anything else to true. -/
def Bit.from_u8 (byte : Nat) : Bit :=
  if byte = 0 then ⟨false⟩ else ⟨true⟩

/-- `struct Byte(u8)`: the raw 8-bit value, as a `Nat` (kept `< 256`). -/
structure Byte where
  val : Nat
deriving DecidableEq, Repr

/-- `impl Default for Byte`: the zero byte. -/
def Byte.default : Byte := ⟨0⟩

/-- `impl From<u8> for Byte`: identity wrap of the raw value. -/
def Byte.from_u8 (byte : Nat) : Byte := ⟨byte⟩

/-- `Byte::as_byte`: the raw value. -/
def Byte.as_byte (b : Byte) : Nat := b.val

/-- `Byte::get_bit`: `Bit::from((usize::from(self.0) & (1 << idx)) > 0)`. -/
def Byte.get_bit (b : Byte) (idx : Nat) : Bit :=
  Bit.from_bool (decide (b.val &&& (1 <<< idx) > 0))

/-- `Byte::set_bit`: `self.0 |= 1 << idx` when setting, and
`self.0 &= !(1 << idx)` (8-bit complement) when clearing. -/
def Byte.set_bit (b : Byte) (val : Bool) (idx : Nat) : Byte :=
  if val then ⟨b.val ||| (1 <<< idx)⟩
  else ⟨b.val &&& (255 ^^^ (1 <<< idx))⟩

/-- `Byte::get_0`: right-most (least-significant) bit. -/
def Byte.get_0 (b : Byte) : Bit := b.get_bit 0

/-- `Byte::get_1`. -/
def Byte.get_1 (b : Byte) : Bit := b.get_bit 1

/-- `Byte::get_2`. -/
def Byte.get_2 (b : Byte) : Bit := b.get_bit 2

/-- `Byte::get_3`. -/
def Byte.get_3 (b : Byte) : Bit := b.get_bit 3

/-- `Byte::get_4`. -/
def Byte.get_4 (b : Byte) : Bit := b.get_bit 4

/-- `Byte::get_5`. -/
def Byte.get_5 (b : Byte) : Bit := b.get_bit 5

/-- `Byte::get_6`. -/
def Byte.get_6 (b : Byte) : Bit := b.get_bit 6

/-- `Byte::get_7`: left-most (most-significant) bit. -/
def Byte.get_7 (b : Byte) : Bit := b.get_bit 7

/-- `Byte::set_0`. -/
def Byte.set_0 (b : Byte) (val : Bool) : Byte := b.set_bit val 0

/-- `Byte::set_1`. -/
def Byte.set_1 (b : Byte) (val : Bool) : Byte := b.set_bit val 1

/-- `Byte::set_2`. -/
def Byte.set_2 (b : Byte) (val : Bool) : Byte := b.set_bit val 2

/-- `Byte::set_3`. -/
def Byte.set_3 (b : Byte) (val : Bool) : Byte := b.set_bit val 3

/-- `Byte::set_4`. -/
def Byte.set_4 (b : Byte) (val : Bool) : Byte := b.set_bit val 4

/-- `Byte::set_5`. -/
def Byte.set_5 (b : Byte) (val : Bool) : Byte := b.set_bit val 5

/-- `Byte::set_6`. -/
def Byte.set_6 (b : Byte) (val : Bool) : Byte := b.set_bit val 6

/-- `Byte::set_7`. -/
def Byte.set_7 (b : Byte) (val : Bool) : Byte := b.set_bit val 7

/-- `impl From<[bool; 8]> for Byte`: starts from the default byte and,
for each input position `p` holding `true`, sets bit-index `7 - p`
(the source tests `bits[7]` before `set_0`, ..., `bits[0]` before
`set_7`).  The fixed-size array is modelled as `Fin 8 → Bool`. -/
def Byte.from_bools (bits : Fin 8 → Bool) : Byte :=
  let byte := Byte.default
  let byte := if bits 7 then byte.set_0 true else byte
  let byte := if bits 6 then byte.set_1 true else byte
  let byte := if bits 5 then byte.set_2 true else byte
  let byte := if bits 4 then byte.set_3 true else byte
  let byte := if bits 3 then byte.set_4 true else byte
  let byte := if bits 2 then byte.set_5 true else byte
  let byte := if bits 1 then byte.set_6 true else byte
  let byte := if bits 0 then byte.set_7 true else byte
  byte

/-- `impl From<[Bit; 8]> for Byte`: `Self::from(bits.map(|b| *b))`. -/
def Byte.from_bits (bits : Fin 8 → Bit) : Byte :=
  Byte.from_bools (fun i => (bits i).val)

/-- `Σ bit(i) * 2^i` over the 8 per-index getters: the reconstruction of
the raw value from the observed bits. -/
def Byte.sum_bits (b : Byte) : Nat :=
  ((List.range 8).map (fun i => (if (b.get_bit i).is_one then 1 else 0) * 2 ^ i)).sum

/-- A sequence of `set_bit` calls, each given as `(value, index)`. -/
def Byte.apply_sets (b : Byte) (ops : List (Bool × Nat)) : Byte :=
  ops.foldl (fun acc p => acc.set_bit p.1 p.2) b

/-- `struct BitIter`: a snapshot of the byte plus the cursor of the next
bit to dispatch. -/
structure BitIter where
  byte : Byte
  idx : Nat
deriving DecidableEq, Repr

/-- `impl IntoIterator for Byte`: iterator over a copy, cursor 0. -/
def Byte.into_iter (b : Byte) : BitIter := ⟨b, 0⟩

/-- `BitIter::next`, as explicit state passing: the produced item (if
any) together with the successor state. -/
def BitIter.next (it : BitIter) : Option Bit × BitIter :=
  if it.idx < 8 then (some (it.byte.get_bit it.idx), ⟨it.byte, it.idx + 1⟩)
  else (none, it)

/-- `BitIter::size_hint`: the source returns the constant `(0, Some(8))`. -/
def BitIter.size_hint (_it : BitIter) : Nat × Option Nat := (0, some 8)

/-- The default `ExactSizeIterator::len` the empty
`impl ExactSizeIterator for BitIter` inherits: it asserts that the two
components of `size_hint` agree and returns the lower bound; `none`
models the assertion failure (a panic). -/
def BitIter.len (it : BitIter) : Option Nat :=
  match it.size_hint with
  | (lo, some hi) => if lo = hi then some lo else none
  | (_, none) => none

/-- Advance the iterator `k` times, discarding the produced items. -/
def BitIter.stepN (it : BitIter) : Nat → BitIter
  | 0 => it
  | k + 1 => (it.next.2).stepN k

/-- Collect the items the iterator produces, with fuel bounding the
number of `next` calls. -/
def BitIter.toList (it : BitIter) : Nat → List Bit
  | 0 => []
  | fuel + 1 =>
    match it.next with
    | (some b, it2) => b :: it2.toList fuel
    | (none, _) => []

/-! ### Helper lemmas -/

/-- `get_bit` observes exactly the `idx`-th bit of the raw value. -/
theorem Byte.get_bit_eq_testBit (b : Byte) (i : Nat) :
    b.get_bit i = Bit.from_bool (b.val.testBit i) := by
  unfold Byte.get_bit
  rw [Nat.one_shiftLeft, Nat.and_two_pow]
  cases h : b.val.testBit i <;> simp [h, Nat.two_pow_pos]

set_option maxRecDepth 4000 in
/-- Reconstructing the raw value from the 8 observed bits is the
identity on bytes in range. -/
theorem Byte.sum_bits_eq_of_lt (b : Byte) (h : b.val < 256) : b.sum_bits = b.val := by
  have key : ∀ v : Fin 256, (Byte.mk v.val).sum_bits = v.val := by decide
  have := key ⟨b.val, h⟩
  cases b
  exact this

/-- `set_bit` keeps the raw value inside the 8-bit range. -/
theorem Byte.set_bit_val_lt (b : Byte) (hb : b.val < 256) (x : Bool) (i : Nat)
    (hi : i < 8) : (b.set_bit x i).val < 256 := by
  unfold Byte.set_bit
  cases x with
  | false =>
    simp only [Bool.false_eq_true, if_false]
    exact Nat.lt_of_le_of_lt Nat.and_le_left hb
  | true =>
    simp only [if_true]
    rw [Nat.one_shiftLeft]
    have h2 : (2 : Nat) ^ i < 2 ^ 8 := Nat.pow_lt_pow_right (by omega) hi
    exact Nat.or_lt_two_pow hb h2

/-- A sequence of in-range `set_bit` calls keeps the raw value in range. -/
theorem Byte.apply_sets_val_lt (b : Byte) (hb : b.val < 256) (ops : List (Bool × Nat))
    (hops : ∀ p ∈ ops, p.2 < 8) : (b.apply_sets ops).val < 256 := by
  induction ops generalizing b with
  | nil => exact hb
  | cons p t ih =>
    have hstep := Byte.set_bit_val_lt b hb p.1 p.2 (hops p (List.mem_cons_self p t))
    have htail : ∀ q ∈ t, q.2 < 8 := fun q hq => hops q (List.mem_cons_of_mem p hq)
    exact ih (b.set_bit p.1 p.2) hstep htail

/-- Reading bit `j` after setting bit `i`: the new value at `i`, the old
bit everywhere else (for in-range `j`). -/
theorem Byte.get_bit_set_bit (b : Byte) (x : Bool) (i j : Nat) (hj : j < 8) :
    (b.set_bit x i).get_bit j =
      Bit.from_bool (if j = i then x else b.val.testBit j) := by
  have h255 : (255 : Nat) = 2 ^ 8 - 1 := by norm_num
  cases x with
  | true =>
    rw [Byte.set_bit, if_pos rfl, Byte.get_bit_eq_testBit]
    show Bit.from_bool ((b.val ||| 1 <<< i).testBit j) = _
    rw [Nat.one_shiftLeft, Nat.testBit_or, Nat.testBit_two_pow]
    by_cases hij : j = i
    · subst hij
      simp
    · have hji : ¬ i = j := fun h => hij h.symm
      simp [hij, hji]
  | false =>
    rw [Byte.set_bit, if_neg (by simp), Byte.get_bit_eq_testBit]
    show Bit.from_bool ((b.val &&& (255 ^^^ 1 <<< i)).testBit j) = _
    rw [Nat.one_shiftLeft, h255, Nat.testBit_and, Nat.testBit_xor,
      Nat.testBit_two_pow_sub_one, Nat.testBit_two_pow]
    by_cases hij : j = i
    · subst hij
      simp [hj]
    · have hji : ¬ i = j := fun h => hij h.symm
      simp [hij, hji, hj]

/-- Cursor arithmetic for repeated `next` calls. -/
theorem BitIter.stepN_idx (byte : Byte) (j : Nat) (hj : j ≤ 8) (k : Nat) :
    ((BitIter.mk byte j).stepN k).idx = min (j + k) 8 := by
  induction k generalizing j with
  | zero => simp [BitIter.stepN]; omega
  | succ k ih =>
    show ((BitIter.mk byte j).next.2.stepN k).idx = _
    by_cases h : j < 8
    · rw [show (BitIter.mk byte j).next.2 = BitIter.mk byte (j + 1) by
        simp [BitIter.next, h]]
      rw [ih (j + 1) (by omega)]
      omega
    · rw [show (BitIter.mk byte j).next.2 = BitIter.mk byte j by
        simp [BitIter.next, h]]
      rw [ih j hj]
      omega

/-! ### Claim theorems -/

/-- C1: for every raw value `v` in `0..256`, constructing a `Byte` from `v`
and recomputing `Σ bit(i) * 2^i` from the 8 per-index getters reproduces
`v` exactly, and this raw/bits consistency still holds after any sequence
of in-range `set_bit` operations. -/
theorem c1_raw_bits_roundtrip (v : Nat) (hv : v < 256) (ops : List (Bool × Nat))
    (hops : ∀ p ∈ ops, p.2 < 8) :
    (Byte.from_u8 v).sum_bits = v ∧
    ((Byte.from_u8 v).apply_sets ops).sum_bits =
      ((Byte.from_u8 v).apply_sets ops).as_byte := by
  refine ⟨Byte.sum_bits_eq_of_lt _ hv, Byte.sum_bits_eq_of_lt _ ?_⟩
  exact Byte.apply_sets_val_lt _ hv ops hops

/-- Witness for C1 at `v = 161` with the set sequence
`[(true, 3), (false, 0)]`. -/
theorem c1_raw_bits_roundtrip_witness :
    (Byte.from_u8 161).sum_bits = 161 ∧
    ((Byte.from_u8 161).apply_sets [(true, 3), (false, 0)]).sum_bits =
      ((Byte.from_u8 161).apply_sets [(true, 3), (false, 0)]).as_byte :=
  c1_raw_bits_roundtrip 161 (by decide) [(true, 3), (false, 0)] (by decide)

set_option maxRecDepth 8000 in
/-- C2: the fixed-size array constructors use big-endian display order —
input position `p` lands at bit-index `7 - p` — and in particular
`[true, false, true, false, false, false, false, true]` (as booleans or
as `Bit`s) yields the same `Byte` as the raw value `161`. -/
theorem c2_array_constructor_reversal :
    (∀ bits : Fin 8 → Bool, ∀ i : Fin 8,
      (Byte.from_bools bits).get_bit i.val = Bit.from_bool (bits ⟨7 - i.val, by omega⟩)) ∧
    Byte.from_bools ![true, false, true, false, false, false, false, true] =
      Byte.from_u8 161 ∧
    (Byte.from_bools ![true, false, true, false, false, false, false, true]).as_byte = 161 ∧
    Byte.from_bits ![Bit.mk true, Bit.mk false, Bit.mk true, Bit.mk false,
      Bit.mk false, Bit.mk false, Bit.mk false, Bit.mk true] = Byte.from_u8 161 :=
  ⟨by decide, by decide, by decide, by decide⟩

/-- C3 (code evaluation): `size_hint` is the constant `(0, some 8)` — it
does not report `8 - cursor` items remaining.  After one `next` call the
cursor is 1 but the reported bounds are still `(0, some 8)`, whose lower
component differs from the 7 items actually remaining, and the default
`ExactSizeIterator::len` inherited by the empty impl aborts (modelled as
`none`) because the two components of `size_hint` disagree. -/
theorem c3_size_hint_not_remaining :
    (∀ it : BitIter, it.size_hint = (0, some 8)) ∧
    ((Byte.from_u8 0).into_iter.next.2.idx = 1 ∧
      (Byte.from_u8 0).into_iter.next.2.size_hint.1 ≠ 8 - 1 ∧
      (Byte.from_u8 0).into_iter.next.2.size_hint.2 ≠ some (8 - 1)) ∧
    (Byte.from_u8 0).into_iter.len = none :=
  ⟨fun _ => rfl, by decide, rfl⟩

/-- C4: the zero/one designations in the source's doc comments are
inverted relative to the returned values — the constructor documented as
producing the "0" bit (`get_one_bit`, whose doc comment reads "Getter for
a bit that has a value of 0") returns a `Bit` with `is_one`, and the one
documented as producing the "1" bit (`get_zero_bit`) returns a `Bit` with
`is_zero`. -/
theorem c4_zero_one_doc_inverted :
    (Bit.get_one_bit_doc_value.is_zero = true ∧ Bit.get_one_bit.is_one = true) ∧
    (Bit.get_zero_bit_doc_value.is_one = true ∧ Bit.get_zero_bit.is_zero = true) ∧
    Bit.get_zero_bit.is_one = (!Bit.get_zero_bit_doc_value.is_one) ∧
    Bit.get_one_bit.is_one = (!Bit.get_one_bit_doc_value.is_one) := by
  decide

/-- C5: `set_bit x i` makes `get_bit i` return `x` and leaves `get_bit j`
unchanged for every in-range `j ≠ i`. -/
theorem c5_setter_locality (b : Byte) (x : Bool) (i : Nat) (hi : i < 8) :
    (b.set_bit x i).get_bit i = Bit.from_bool x ∧
    ∀ j : Nat, j < 8 → j ≠ i → (b.set_bit x i).get_bit j = b.get_bit j := by
  constructor
  · rw [Byte.get_bit_set_bit b x i i hi]
    simp
  · intro j hj hne
    rw [Byte.get_bit_set_bit b x i j hj, Byte.get_bit_eq_testBit]
    simp [hne]

/-- Witness for C5: setting bit 3 of the byte 5 leaves bit 0 unchanged. -/
theorem c5_setter_locality_witness :
    ((Byte.from_u8 5).set_bit true 3).get_bit 0 = (Byte.from_u8 5).get_bit 0 :=
  (c5_setter_locality (Byte.from_u8 5) true 3 (by decide)).2 0 (by decide) (by decide)

/-- C6: iterating a `Byte` yields exactly its 8 bits in
least-significant-to-most-significant order; in particular the byte with
bits set exactly at indices {1,2,3,4,6} yields
`[false, true, true, true, true, false, true, false]` and then nothing. -/
theorem c6_iteration_order :
    (∀ b : Byte, (b.into_iter.toList 9).length = 8) ∧
    (∀ b : Byte, b.into_iter.toList 9 = (List.range 8).map (fun i => b.get_bit i)) ∧
    ((((((Byte.from_u8 0).set_1 true).set_2 true).set_3 true).set_4 true).set_6
        true).into_iter.toList 9 =
      [Bit.mk false, Bit.mk true, Bit.mk true, Bit.mk true, Bit.mk true,
        Bit.mk false, Bit.mk true, Bit.mk false] ∧
    (((((((Byte.from_u8 0).set_1 true).set_2 true).set_3 true).set_4 true).set_6
        true).into_iter.stepN 8).next.1 = none :=
  ⟨fun _ => rfl, fun _ => rfl, by decide, by decide⟩

/-- C7: the cursor never leaves `0..=8` (after `k` steps it sits at
`min k 8`), and once it has reached 8 every further `next` returns `none`
and leaves the state unchanged — exhaustion is permanent and idempotent. -/
theorem c7_iter_exhaustion :
    (∀ (b : Byte) (k : Nat), (b.into_iter.stepN k).idx = min k 8) ∧
    (∀ it : BitIter, 8 ≤ it.idx → it.next = (none, it)) := by
  constructor
  · intro b k
    simpa [Byte.into_iter] using BitIter.stepN_idx b 0 (by omega) k
  · intro it h
    simp [BitIter.next, Nat.not_lt.mpr h]

/-- Witness for C7: a cursor already at 8 stays exhausted. -/
theorem c7_iter_exhaustion_witness :
    (BitIter.mk (Byte.from_u8 7) 8).next = (none, BitIter.mk (Byte.from_u8 7) 8) :=
  c7_iter_exhaustion.2 (BitIter.mk (Byte.from_u8 7) 8) (by decide)

/-- C8: `Bit::from` on an unsigned integer is total and deterministic —
the result is one iff the input is nonzero, zero iff the input is 0. -/
theorem c8_bit_from_integer (n : Nat) :
    (Bit.from_u8 n).is_one = decide (n ≠ 0) ∧
    (Bit.from_u8 n).is_zero = decide (n = 0) := by
  by_cases h : n = 0 <;> simp [Bit.from_u8, h, Bit.is_one, Bit.is_zero]

/-- C9: for every `Bit`, `is_zero` is the boolean negation of `is_one`,
so exactly one of the two queries holds — they can never agree. -/
theorem c9_bit_queries_exclusive (b : Bit) :
    b.is_zero = !b.is_one ∧ b.is_one ≠ b.is_zero := by
  cases b with
  | mk v => cases v <;> simp [Bit.is_one, Bit.is_zero]

/-- C10: each public accessor `get_0..get_7` / `set_0..set_7` delegates to
`get_bit`/`set_bit` at a literal index below 8, the shift `1 <<< i` stays
below 256 for every such index, and an in-range `set_bit` keeps the raw
value in `0..256` and preserves the raw/bits consistency of C1. -/
theorem c10_public_index_safety :
    (∀ b : Byte, b.get_0 = b.get_bit 0 ∧ b.get_1 = b.get_bit 1 ∧
      b.get_2 = b.get_bit 2 ∧ b.get_3 = b.get_bit 3 ∧ b.get_4 = b.get_bit 4 ∧
      b.get_5 = b.get_bit 5 ∧ b.get_6 = b.get_bit 6 ∧ b.get_7 = b.get_bit 7) ∧
    (∀ (b : Byte) (v : Bool), b.set_0 v = b.set_bit v 0 ∧ b.set_1 v = b.set_bit v 1 ∧
      b.set_2 v = b.set_bit v 2 ∧ b.set_3 v = b.set_bit v 3 ∧ b.set_4 v = b.set_bit v 4 ∧
      b.set_5 v = b.set_bit v 5 ∧ b.set_6 v = b.set_bit v 6 ∧ b.set_7 v = b.set_bit v 7) ∧
    (∀ i : Nat, i < 8 → (1 : Nat) <<< i < 256) ∧
    (∀ (b : Byte) (v : Bool) (i : Nat), b.as_byte < 256 → i < 8 →
      (b.set_bit v i).as_byte < 256 ∧
      (b.set_bit v i).sum_bits = (b.set_bit v i).as_byte) := by
  refine ⟨fun b => ⟨rfl, rfl, rfl, rfl, rfl, rfl, rfl, rfl⟩,
    fun b v => ⟨rfl, rfl, rfl, rfl, rfl, rfl, rfl, rfl⟩, ?_, ?_⟩
  · intro i hi
    interval_cases i <;> decide
  · intro b v i hb hi
    have hlt := Byte.set_bit_val_lt b hb v i hi
    exact ⟨hlt, Byte.sum_bits_eq_of_lt _ hlt⟩

/-- Witness for C10: setting bit 7 of the byte 200 keeps the raw value in
range. -/
theorem c10_public_index_safety_witness :
    ((Byte.from_u8 200).set_bit true 7).as_byte < 256 :=
  (c10_public_index_safety.2.2.2 (Byte.from_u8 200) true 7 (by decide) (by decide)).1

end BitArray
